import Mathlib

/-!
Verification model of the request-decoding and body-streaming layer
(`src/request/request.rs`) of the aegis_server HTTP/1.x connection handler.

Byte strings are modelled as `List Nat` (each element a byte value).
`usize` arithmetic is `Nat`; the one place where a Rust `usize` subtraction
can underflow (reachable when `total_read` overshoots `body_limit`) is
modelled with the release-mode wrapping semantics, as an explicit `% 2^64`.
The socket is modelled as an oracle: the list of results that successive
blocking `stream.read` calls would return; a socket read consumes the head
of that list.  Fallible operations return `Option`/sum types; a Rust
`unwrap` panic is modelled as `none`.
-/

/-- Number of values of a 64-bit `usize`. -/
def usizeSize : Nat := 2 ^ 64

/-- `usize::MAX`, the sentinel `content_length` starts from. -/
def usizeMax : Nat := 2 ^ 64 - 1

/-- Wrapping `usize` subtraction `a - b` (release-mode Rust semantics),
for `a b < 2^64`.  Equals `a - b` when `b ≤ a`. -/
def subUsize (a b : Nat) : Nat := (a + usizeSize - b) % usizeSize

/-- ASCII lower-casing of one byte, as done by `eq_ignore_ascii_case`. -/
def toLowerAscii (b : Nat) : Nat := if 65 ≤ b ∧ b ≤ 90 then b + 32 else b

/-- Model of Rust's `eq_ignore_ascii_case` on byte/str slices. -/
def eqIgnoreAsciiCase (a b : List Nat) : Bool :=
  a.map toLowerAscii == b.map toLowerAscii

/-- Byte list of an ASCII string literal. -/
def asciiBytes (s : String) : List Nat := s.data.map Char.toNat

/-- One parsed header: a (name, value) pair of byte ranges.
The name is produced by `httparse` as a `&str`; the value is raw bytes. -/
structure Header where
  name : List Nat
  value : List Nat
deriving DecidableEq

/-- Model of `<usize as FromStr>::from_str` applied to a byte slice
(composed with the `str::from_utf8` check preceding it in
`content_length`): accepts an optional leading `+` followed by one or
more ASCII digits, requiring the value to fit in a `usize`; anything
else (including non-UTF-8 bytes, which fail the `from_utf8` step) is
`none`.  Only ASCII-digit strings are accepted, so the UTF-8 check is
subsumed. -/
def parseUsize (bs : List Nat) : Option Nat :=
  let ds := match bs with
    | 43 :: rest => rest
    | _ => bs
  if ds = [] then none
  else if ds.all (fun b => decide (48 ≤ b) && decide (b ≤ 57)) then
    let v := ds.foldl (fun acc b => acc * 10 + (b - 48)) 0
    if v ≤ usizeMax then some v else none
  else none

/-- State of `BodyReader`:  `req_buf` is the unread region of the
connection's `BytesMut` buffer, `body_limit` the declared content length
(or `usize::MAX`), `total_read` the running counter the reader keeps. -/
structure BodyReader where
  req_buf : List Nat
  body_limit : Nat
  total_read : Nat
deriving DecidableEq

/-- Result of one blocking `stream.read` on the socket: either `n` bytes
arrived (`ok chunk`, with `chunk = []` meaning the peer reported
end-of-stream) or the read failed with an I/O error. -/
inductive SockRead where
  | ok (chunk : List Nat)
  | err
deriving DecidableEq

/-- Outcome of one `BodyReader::read` call: `ok bytes s sock` means the
call returned `Ok(bytes.length)` after copying `bytes` into the caller's
slice, leaving reader state `s` and socket oracle `sock`; `ioErr` means a
socket error was propagated. -/
inductive ReadOutcome where
  | ok (bytes : List Nat) (s : BodyReader) (sock : List SockRead)
  | ioErr (s : BodyReader) (sock : List SockRead)
deriving DecidableEq

/-- The `loop` inside `BodyReader::read` (request/request.rs lines
86-100), for a caller slice of length `k`.  If the buffer is non-empty,
copy `min (min k (body_limit -w total_read)) |req_buf|` bytes out of it
(`-w` the wrapping `usize` subtraction), bump `total_read` and return.
Otherwise perform one socket read: an error propagates (before
`total_read` is updated), and `n` arriving bytes are appended to the
buffer (`reserve_buf`/`chunk_mut`/`advance_mut` only affect capacity,
which is not observable here) with `total_read += n`, looping back.
`none` means the modelled socket oracle was exhausted without the call
returning, i.e. the call is still blocked inside the loop. -/
def readLoop (k : Nat) : BodyReader → List SockRead → Option ReadOutcome
  | s, sock =>
    if s.req_buf = [] then
      match sock with
      | [] => none
      | SockRead.err :: rest => some (ReadOutcome.ioErr s rest)
      | SockRead.ok c :: rest =>
          readLoop k ⟨s.req_buf ++ c, s.body_limit, s.total_read + c.length⟩ rest
    else
      let minLen := min k (subUsize s.body_limit s.total_read)
      let n := min minLen s.req_buf.length
      some (ReadOutcome.ok (s.req_buf.take n)
        ⟨s.req_buf.drop n, s.body_limit, s.total_read + n⟩ sock)

/-- `BodyReader::read` (request/request.rs lines 81-101): the early
return `Ok(0)` when `total_read >= body_limit`, else the loop. -/
def BodyReader.read (s : BodyReader) (sock : List SockRead) (k : Nat) :
    Option ReadOutcome :=
  if s.body_limit ≤ s.total_read then some (ReadOutcome.ok [] s sock)
  else readLoop k s sock

/-- `BufRead::fill_buf` for `BodyReader` (lines 105-107): returns the
whole unread region `req_buf.chunk()`; it never errors and never touches
the reader state or the socket. -/
def BodyReader.fill_buf (s : BodyReader) : List Nat := s.req_buf

/-- `BufRead::consume` for `BodyReader` (lines 109-111):
`req_buf.advance(amt)`.  (`BytesMut::advance` panics when
`amt > remaining`; the model is stated for in-range `amt`.) -/
def BodyReader.consume (amt : Nat) (s : BodyReader) : BodyReader :=
  ⟨s.req_buf.drop amt, s.body_limit, s.total_read⟩

/-- A sequence of `read` calls with the given slice lengths, returning
the concatenation of all delivered bytes together with the final reader
state and remaining socket oracle (`none` if any call blocks forever or
errors). -/
def runReads : BodyReader → List SockRead → List Nat →
    Option (List Nat × BodyReader × List SockRead)
  | s, sock, [] => some ([], s, sock)
  | s, sock, k :: ks =>
    match s.read sock k with
    | some (ReadOutcome.ok bs s' sock') =>
        (runReads s' sock' ks).map fun r => (bs ++ r.1, r.2.1, r.2.2)
    | _ => none

/-- `RawRequest`: the parsed-header view plus the buffer's unread region
(which, after `decode`, starts right after the header terminator). -/
structure RawRequest where
  headers : List Header
  req_buf : List Nat
deriving DecidableEq

/-- The header scan of `RawRequest::content_length` (lines 158-167):
start from `usize::MAX`, replace it by the parsed value of the first
header whose name case-insensitively equals `content-length`, `break`.
The two `unwrap`s make an unparsable value a panic, modelled as `none`. -/
def contentLengthOf : List Header → Option Nat
  | [] => some usizeMax
  | h :: rest =>
    if eqIgnoreAsciiCase h.name (asciiBytes "content-length") then parseUsize h.value
    else contentLengthOf rest

/-- `RawRequest::content_length`. -/
def RawRequest.content_length (r : RawRequest) : Option Nat :=
  contentLengthOf r.headers

/-- `RawRequest::body` (lines 149-156): a fresh `BodyReader` over the
same buffer with `body_limit = content_length()` and `total_read = 0`;
`none` models the panic inside `content_length`. -/
def RawRequest.body (r : RawRequest) : Option BodyReader :=
  (r.content_length).map fun n => ⟨r.req_buf, n, 0⟩

/-- `RawRequest::json_body` (lines 138-143): feed the *entire* remaining
buffer content to the JSON decoder, via a cursor — no body limit, no
socket.  The external `serde_json::from_reader` is abstracted as a
decoder `dec` from the full byte stream a reader can deliver to an
optional value (`none` = decode error). -/
def RawRequest.json_body {J : Type} (dec : List Nat → Option J) (r : RawRequest) :
    Option J :=
  dec r.req_buf

/-- `Request` facade: the two parameter maps (modelled as association
lists; populated externally) plus the wrapped `RawRequest`. -/
structure Request where
  parameters : List (String × String)
  url_parameters : List (String × String)
  req : RawRequest

/-- `Request::headers`, delegating to the wrapped view. -/
def Request.headers (r : Request) : List Header := r.req.headers

/-- `Request::parameter`: optional lookup in the parameters map. -/
def Request.parameter (r : Request) (name : String) : Option String :=
  (r.parameters.find? (fun p => p.1 = name)).map Prod.snd

/-- `Request::keep_alive` (lines 54-59): some header's name
case-insensitively equals "connection" *and* its value satisfies
`str::from_utf8(value).ok() == Some("keep-alive")`, which holds exactly
when the value bytes equal `b"keep-alive"` (an invalid-UTF-8 value gives
`None`, which is not `Some("keep-alive")`, so it fails closed). -/
def Request.keep_alive (r : Request) : Bool :=
  r.headers.any fun h =>
    eqIgnoreAsciiCase h.name (asciiBytes "connection") &&
      h.value == asciiBytes "keep-alive"

/-- `Request::body` (lines 42-44), delegating to `RawRequest::body`. -/
def Request.body (r : Request) : Option BodyReader := r.req.body

/-- Fuelled driver modelling `serde_json::from_reader` pulling bytes
from a `BodyReader` until it reports end-of-stream: each pull asks for
the remaining allowance `body_limit - total_read`; the delivered chunks
are concatenated.  `none` models a pull that blocks forever or an I/O
error (no JSON result is produced). -/
def drainAux : Nat → BodyReader → List SockRead → Option (List Nat)
  | 0, _, _ => none
  | f + 1, s, sock =>
    match s.read sock (s.body_limit - s.total_read) with
    | some (ReadOutcome.ok [] _ _) => some []
    | some (ReadOutcome.ok bs s' sock') => (drainAux f s' sock').map fun r => bs ++ r
    | _ => none

/-- All bytes a `BodyReader` delivers before reporting end-of-stream
(fuel is an upper bound on the number of pulls needed in any run that
terminates within the modelled socket oracle). -/
def drain (s : BodyReader) (sock : List SockRead) : Option (List Nat) :=
  drainAux (s.req_buf.length + sock.length + 2) s sock

/-- Result of `Request::json_body`: the `content_length` panic, a call
that never returns (or dies on a socket error), or a decode result. -/
inductive JsonOutcome (J : Type) where
  | panics
  | noResult
  | result (v : Option J)
deriving DecidableEq

/-- `Request::json_body` (lines 37-40):
`serde_json::from_reader(self.body())` — the document is decoded from
the byte stream of the `BodyReader` obtained from `self.body()`, not
from the raw buffer. -/
def Request.json_body {J : Type} (dec : List Nat → Option J) (r : Request)
    (sock : List SockRead) : JsonOutcome J :=
  match r.body with
  | none => JsonOutcome.panics
  | some br =>
    match drain br sock with
    | none => JsonOutcome.noResult
    | some bs => JsonOutcome.result (dec bs)

/-- Concrete decoder instance for documents that are a single
non-negative integer (the behaviour `serde_json` has on such inputs):
used to compare the two `json_body` paths on concrete states. -/
def decodeJsonNat (bs : List Nat) : Option Nat :=
  if bs ≠ [] ∧ bs.all (fun b => decide (48 ≤ b) && decide (b ≤ 57)) = true then
    some (bs.foldl (fun acc b => acc * 10 + (b - 48)) 0)
  else none

/-- The connection buffer as `decode` sees it: backing bytes plus the
read offset (`BytesMut::advance(n)` moves the offset forward by `n`). -/
structure ConnBuf where
  data : List Nat
  off : Nat
deriving DecidableEq

/-- Unread region of the connection buffer (`req_buf.chunk()`). -/
def ConnBuf.unread (b : ConnBuf) : List Nat := b.data.drop b.off

/-- Result of the external `httparse` parse of the unread region:
`complete amt` reports (per httparse's contract) the number of bytes of
the request line + headers + terminating blank line; `incomplete` is
`Status::Partial`; `malformed` a parse error. -/
inductive ParseStatus where
  | complete (amt : Nat)
  | incomplete
  | malformed (msg : String)

/-- Return value of `decode`: `io::Result<Option<RawRequest>>`. -/
inductive DecodeOut where
  | ok (view : Option RawRequest)
  | ioError (msg : String)
deriving DecidableEq

/-- `decode` (lines 176-205), parameterised by the `httparse` result on
the buffer's unread region (`st`) and by the headers it filled in
(`hdrs`): a parse error is wrapped into an `io::Error` and returned with
the buffer untouched; `Partial` returns `Ok(None)` with the buffer
untouched; `Complete amt` advances the read offset by exactly `amt` and
hands the advanced buffer to the returned `RawRequest`. -/
def decode (st : ParseStatus) (hdrs : List Header) (buf : ConnBuf) :
    DecodeOut × ConnBuf :=
  match st with
  | ParseStatus.malformed m =>
      (DecodeOut.ioError ("failed to parse http request: " ++ m), buf)
  | ParseStatus.incomplete => (DecodeOut.ok none, buf)
  | ParseStatus.complete amt =>
      let buf' : ConnBuf := ⟨buf.data, buf.off + amt⟩
      (DecodeOut.ok (some ⟨hdrs, buf'.unread⟩), buf')

/-- Number of bytes a single `read` call copies out of a non-empty
buffer: zero at/past the limit, else
`min (min k (body_limit - total_read)) |req_buf|` (for states with
`total_read ≤ body_limit < 2^64`, where the wrapping subtraction is
plain subtraction). -/
def bufferedCopyLen (s : BodyReader) (k : Nat) : Nat :=
  if s.body_limit ≤ s.total_read then 0
  else min (min k (s.body_limit - s.total_read)) s.req_buf.length

/-! ## Helper lemmas -/

/-- When no underflow occurs, the wrapping `usize` subtraction is plain
subtraction. -/
theorem subUsize_of_le {a b : Nat} (hb : b ≤ a) (ha : a < usizeSize) :
    subUsize a b = a - b := by
  unfold subUsize
  have h1 : a + usizeSize - b = (a - b) + usizeSize := by omega
  rw [h1, Nat.add_mod_right, Nat.mod_eq_of_lt (by omega)]

/-- A `read` call with `total_read` at or past `body_limit` returns zero
bytes and changes nothing. -/
theorem read_limit_le_eq (s : BodyReader) (sock : List SockRead) (k : Nat)
    (h : s.body_limit ≤ s.total_read) :
    s.read sock k = some (ReadOutcome.ok [] s sock) := by
  unfold BodyReader.read
  rw [if_pos h]

/-- A `read` call that finds a non-empty buffer and budget left copies
`min (min k (limit - total)) |buf|` bytes straight out of the buffer. -/
theorem read_buffered_eq (s : BodyReader) (sock : List SockRead) (k : Nat)
    (hbne : s.req_buf ≠ []) (hlt : s.total_read < s.body_limit) :
    s.read sock k = some (ReadOutcome.ok
      (s.req_buf.take (min (min k (subUsize s.body_limit s.total_read)) s.req_buf.length))
      ⟨s.req_buf.drop (min (min k (subUsize s.body_limit s.total_read)) s.req_buf.length),
        s.body_limit,
        s.total_read + min (min k (subUsize s.body_limit s.total_read)) s.req_buf.length⟩
      sock) := by
  unfold BodyReader.read
  rw [if_neg (by omega)]
  rw [readLoop.eq_def]
  simp only [if_neg hbne]

/-! ## C3 — decode is atomic with respect to the read offset -/

/-- C3 (confirmed): `decode` advances the buffer's read offset by
exactly the byte count `amt` that the parser reports for the request
line + headers + terminating blank line on `Complete` (per `httparse`'s
contract for `Status::Complete`), keeping the backing data intact and
returning a view over the remaining bytes; on `Partial` it returns
`Ok(None)` with the buffer untouched; on a parse error it returns the
wrapped error with the buffer untouched. -/
theorem decode_offset_atomic (amt : Nat) (m : String) (hdrs : List Header)
    (buf : ConnBuf) :
    ((decode (ParseStatus.complete amt) hdrs buf).2.off = buf.off + amt ∧
      (decode (ParseStatus.complete amt) hdrs buf).2.data = buf.data ∧
      (decode (ParseStatus.complete amt) hdrs buf).1 =
        DecodeOut.ok (some ⟨hdrs, buf.data.drop (buf.off + amt)⟩)) ∧
    decode ParseStatus.incomplete hdrs buf = (DecodeOut.ok none, buf) ∧
    decode (ParseStatus.malformed m) hdrs buf =
      (DecodeOut.ioError ("failed to parse http request: " ++ m), buf) :=
  ⟨⟨rfl, rfl, rfl⟩, rfl, rfl⟩

/-! ## C7 — reads at the limit are a complete no-op -/

/-- C7 (confirmed): whenever `total_read = body_limit`, a `read` call
returns zero bytes and leaves the buffer, the counter and the socket
untouched, whatever data remains available. -/
theorem read_at_limit_noop (s : BodyReader) (sock : List SockRead) (k : Nat)
    (h : s.total_read = s.body_limit) :
    s.read sock k = some (ReadOutcome.ok [] s sock) :=
  read_limit_le_eq s sock k (Nat.le_of_eq h.symm)

/-- Witness for C7 at a concrete state with buffered and socket data
still available. -/
theorem read_at_limit_noop_witness :
    BodyReader.read ⟨[5], 3, 3⟩ [SockRead.ok [1]] 9 =
      some (ReadOutcome.ok [] ⟨[5], 3, 3⟩ [SockRead.ok [1]]) :=
  read_at_limit_noop ⟨[5], 3, 3⟩ [SockRead.ok [1]] 9 rfl

/-! ## C6 — fill_buf/consume are NOT bounded by the content length -/

/-- C6 counterexample: with `body_limit = 1` and two buffered bytes,
`fill_buf` exposes both bytes — more than `body_limit - total_read` —
and discarding both via `consume` leaves `total_read` at 0, so the
discarded bytes are not counted against the content-length bound. -/
theorem fill_buf_unbounded_consume_uncounted :
    BodyReader.fill_buf ⟨[97, 98], 1, 0⟩ = [97, 98] ∧
    (BodyReader.fill_buf ⟨[97, 98], 1, 0⟩).length >
      (⟨[97, 98], 1, 0⟩ : BodyReader).body_limit -
        (⟨[97, 98], 1, 0⟩ : BodyReader).total_read ∧
    (BodyReader.consume 2 ⟨[97, 98], 1, 0⟩).total_read = 0 ∧
    (BodyReader.consume 2 ⟨[97, 98], 1, 0⟩).req_buf = [] := by
  decide

/-- C6 as amended: `fill_buf` returns the buffer's entire unread region
regardless of `body_limit`, and `consume amt` discards `amt` buffered
bytes while leaving both `total_read` and `body_limit` unchanged (the
peek/discard interface is not bounded by the declared content length). -/
theorem fill_buf_consume_spec (s : BodyReader) (amt : Nat) :
    BodyReader.fill_buf s = s.req_buf ∧
    BodyReader.consume amt s =
      ⟨s.req_buf.drop amt, s.body_limit, s.total_read⟩ :=
  ⟨rfl, rfl⟩

/-! ## C5 — keep_alive compares the value case-SENSITIVELY -/

/-- C5 counterexample: the wire-typical header `Connection: Keep-Alive`
has a name that case-insensitively equals "connection" and a value that
case-insensitively equals "keep-alive", yet `keep_alive` returns
`false`, because the code compares the value bytes exactly. -/
theorem keep_alive_value_case_sensitive :
    Request.keep_alive
      ⟨[], [], ⟨[⟨asciiBytes "Connection", asciiBytes "Keep-Alive"⟩], []⟩⟩ = false ∧
    eqIgnoreAsciiCase (asciiBytes "Connection") (asciiBytes "connection") = true ∧
    eqIgnoreAsciiCase (asciiBytes "Keep-Alive") (asciiBytes "keep-alive") = true := by
  decide

/-- C5 as amended: `keep_alive()` returns true iff some header whose
name case-insensitively equals "Connection" has a value byte-for-byte
equal to `keep-alive` (lowercase); the value comparison is
case-sensitive, and a non-text value never matches (it cannot equal
those bytes), so the comparison fails closed. -/
theorem keep_alive_iff_exact_value (r : Request) :
    Request.keep_alive r = true ↔
      ∃ h ∈ r.req.headers,
        eqIgnoreAsciiCase h.name (asciiBytes "connection") = true ∧
        h.value = asciiBytes "keep-alive" := by
  simp [Request.keep_alive, Request.headers, List.any_eq_true,
    Bool.and_eq_true, beq_iff_eq]

/-! ## C4 — content_length policy -/

/-- C4 (confirmed): if no header name case-insensitively matches
`Content-Length`, the limit is the unbounded sentinel `usize::MAX`;
otherwise the result is exactly the parse of the first matching header's
value — `none` (the `unwrap` panic, fatal for the request) when that
value is not a parsable non-negative integer that fits in `usize`, never
a silent default. -/
theorem content_length_policy (hdrs : List Header) (buf : List Nat) :
    (hdrs.find? (fun h => eqIgnoreAsciiCase h.name (asciiBytes "content-length")) =
        none →
      RawRequest.content_length ⟨hdrs, buf⟩ = some usizeMax) ∧
    (∀ hd,
      hdrs.find? (fun h => eqIgnoreAsciiCase h.name (asciiBytes "content-length")) =
          some hd →
      RawRequest.content_length ⟨hdrs, buf⟩ = parseUsize hd.value) ∧
    (∀ hd,
      hdrs.find? (fun h => eqIgnoreAsciiCase h.name (asciiBytes "content-length")) =
          some hd →
      parseUsize hd.value = none →
      RawRequest.content_length ⟨hdrs, buf⟩ = none) := by
  have main :
      (hdrs.find? (fun h => eqIgnoreAsciiCase h.name (asciiBytes "content-length")) =
          none →
        contentLengthOf hdrs = some usizeMax) ∧
      (∀ hd,
        hdrs.find? (fun h => eqIgnoreAsciiCase h.name (asciiBytes "content-length")) =
            some hd →
        contentLengthOf hdrs = parseUsize hd.value) := by
    induction hdrs with
    | nil => exact ⟨fun _ => rfl, fun hd h => by simp at h⟩
    | cons h t ih =>
      by_cases hc : eqIgnoreAsciiCase h.name (asciiBytes "content-length") = true
      · refine ⟨fun hnone => ?_, fun hd hsome => ?_⟩
        · rw [List.find?_cons_of_pos
            (p := fun x => eqIgnoreAsciiCase x.name (asciiBytes "content-length"))
            t hc] at hnone
          exact absurd hnone (by simp)
        · rw [List.find?_cons_of_pos
            (p := fun x => eqIgnoreAsciiCase x.name (asciiBytes "content-length"))
            t hc] at hsome
          have : h = hd := by simpa using hsome
          subst this
          show contentLengthOf (h :: t) = parseUsize h.value
          unfold contentLengthOf
          rw [if_pos hc]
      · have hcb : ¬ (eqIgnoreAsciiCase h.name (asciiBytes "content-length") = true) := hc
        refine ⟨fun hnone => ?_, fun hd hsome => ?_⟩
        · rw [List.find?_cons_of_neg
            (p := fun x => eqIgnoreAsciiCase x.name (asciiBytes "content-length"))
            t hcb] at hnone
          show contentLengthOf (h :: t) = some usizeMax
          unfold contentLengthOf
          rw [if_neg hcb]
          exact ih.1 hnone
        · rw [List.find?_cons_of_neg
            (p := fun x => eqIgnoreAsciiCase x.name (asciiBytes "content-length"))
            t hcb] at hsome
          show contentLengthOf (h :: t) = parseUsize hd.value
          unfold contentLengthOf
          rw [if_neg hcb]
          exact ih.2 hd hsome
  exact ⟨main.1, main.2, fun hd hs hp => by
    show contentLengthOf hdrs = none
    rw [main.2 hd hs, hp]⟩

/-- Witness for C4: a request with no Content-Length header gets the
`usize::MAX` sentinel; one whose Content-Length value is the non-numeric
byte `x` panics (`none`), rather than defaulting. -/
theorem content_length_policy_witness :
    RawRequest.content_length ⟨[], [1]⟩ = some usizeMax ∧
    RawRequest.content_length ⟨[⟨asciiBytes "Content-Length", [120]⟩], [1]⟩ =
      none := by
  refine ⟨(content_length_policy [] [1]).1 (by decide), ?_⟩
  have h := (content_length_policy [⟨asciiBytes "Content-Length", [120]⟩] [1]).2.2
    ⟨asciiBytes "Content-Length", [120]⟩ (by decide) (by decide)
  exact h

/-- Characterisation of any sequence of `read` calls on a reader whose
buffer already holds the whole remaining body allowance
(`body_limit - total_read ≤ |req_buf|`): every call is served from the
buffer, the concatenated deliveries are the first
`min (body_limit - total_read) (sum of requested sizes)` buffered bytes,
and the socket oracle is never consumed. -/
theorem runReads_buffered_aux (ks : List Nat) :
    ∀ (buf : List Nat) (N t : Nat) (sock : List SockRead),
      t ≤ N → N < usizeSize → N - t ≤ buf.length →
      runReads ⟨buf, N, t⟩ sock ks =
        some (buf.take (min (N - t) ks.sum),
          ⟨buf.drop (min (N - t) ks.sum), N, t + min (N - t) ks.sum⟩, sock) := by
  induction ks with
  | nil =>
    intro buf N t sock ht hN hbuf
    simp [runReads]
  | cons k ks ih =>
    intro buf N t sock ht hN hbuf
    rcases Nat.lt_or_ge t N with hlt | hge
    · have hbne : buf ≠ [] := by
        intro hb
        rw [hb] at hbuf
        simp at hbuf
        omega
      have hread := read_buffered_eq ⟨buf, N, t⟩ sock k hbne hlt
      rw [subUsize_of_le (Nat.le_of_lt hlt) hN] at hread
      set n := min (min k (N - t)) buf.length with hn
      simp only [runReads]
      rw [hread]
      simp only []
      rw [ih (buf.drop n) N (t + n) sock (by omega) hN
        (by simp only [List.length_drop]; omega)]
      set m := min (N - (t + n)) ks.sum with hm
      simp only [List.sum_cons, Option.map_some']
      have e1 : List.take n buf ++ List.take m (List.drop n buf) =
          List.take (min (N - t) (k + ks.sum)) buf := by
        rw [← List.take_add]
        congr 1
        omega
      have e2 : List.drop m (List.drop n buf) =
          List.drop (min (N - t) (k + ks.sum)) buf := by
        rw [List.drop_drop]
        congr 1
        omega
      have e3 : t + n + m = t + min (N - t) (k + ks.sum) := by omega
      rw [e1, e2, e3]
    · have hNt : t = N := Nat.le_antisymm ht hge
      simp only [runReads]
      rw [read_limit_le_eq ⟨buf, N, t⟩ sock k (by simp only []; omega)]
      simp only []
      rw [ih buf N t sock ht hN hbuf]
      have h0 : N - t = 0 := by omega
      simp [h0]

/-! ## C1 — total bytes delivered by the Body Reader -/

/-- C1 counterexample: a fresh reader for `Content-Length: 1` with an
empty buffer and the single body byte available on the socket.  The
socket-refill branch counts the fetched byte into `total_read`, so the
subsequent buffered delivery is capped at `1 - 1 = 0` bytes: the first
read returns 0 bytes, `total_read` reaches the limit, and every further
read returns 0 bytes — 0 bytes are ever delivered, not the declared 1,
even though the byte sits in the buffer. -/
theorem read_refill_loses_bytes :
    runReads ⟨[], 1, 0⟩ [SockRead.ok [97]] [1, 1, 1] =
      some ([], ⟨[97], 1, 1⟩, []) ∧
    BodyReader.read ⟨[97], 1, 1⟩ [] 5 =
      some (ReadOutcome.ok [] ⟨[97], 1, 1⟩ []) := by
  decide

/-- C1 as amended: exact-N delivery holds for the already-buffered case.
For a fresh reader (`total_read = 0`) whose buffer already holds at
least `body_limit = N` bytes, any sequence of read sizes delivers
exactly `min N (sum of sizes)` bytes — hence exactly `N` once the
requested sizes sum to at least `N` — the socket is never touched, and
afterwards every read returns zero bytes.  (When socket refills are
needed, fetched bytes are also counted into `total_read`, so fewer than
`N` bytes may be delivered, as the counterexample shows.) -/
theorem runReads_buffered_delivers_min (buf : List Nat) (N : Nat)
    (sock : List SockRead) (ks : List Nat) (hN : N < usizeSize)
    (hbuf : N ≤ buf.length) :
    runReads ⟨buf, N, 0⟩ sock ks =
      some (buf.take (min N ks.sum),
        ⟨buf.drop (min N ks.sum), N, min N ks.sum⟩, sock) ∧
    (N ≤ ks.sum → ∀ (sockB : List SockRead) (k : Nat),
      BodyReader.read ⟨buf.drop (min N ks.sum), N, min N ks.sum⟩ sockB k =
        some (ReadOutcome.ok [] ⟨buf.drop (min N ks.sum), N, min N ks.sum⟩ sockB)) := by
  have h := runReads_buffered_aux ks buf N 0 sock (Nat.zero_le N) hN
    (by simpa using hbuf)
  constructor
  · simpa using h
  · intro hsum sockB k
    exact read_limit_le_eq _ _ _ (by show N ≤ min N ks.sum; omega)

/-- Witness for C1's amended theorem: 3 buffered bytes, limit 2, reads
of sizes 1 and 5 deliver exactly bytes `[1, 2]`; a further read returns
zero bytes. -/
theorem runReads_buffered_delivers_min_witness :
    runReads ⟨[1, 2, 3], 2, 0⟩ [] [1, 5] = some ([1, 2], ⟨[3], 2, 2⟩, []) ∧
    BodyReader.read ⟨[3], 2, 2⟩ [SockRead.ok [9]] 4 =
      some (ReadOutcome.ok [] ⟨[3], 2, 2⟩ [SockRead.ok [9]]) := by
  have h := runReads_buffered_delivers_min [1, 2, 3] 2 [] [1, 5]
    (by decide) (by decide)
  constructor
  · rw [h.1]
    decide
  · have h2 := h.2 (by decide) [SockRead.ok [9]] 4
    simpa using h2

/-! ## C2 — the invariant total_read ≤ body_limit -/

/-- C2 counterexample: from a state satisfying the invariant
(`total_read = 0 ≤ 1 = body_limit`), a single read that goes through the
socket-refill branch and receives 2 bytes ends with `total_read = 3 >
1 = body_limit`: the refill adds the fetched byte count and the
delivery adds the copied count again. -/
theorem read_refill_breaks_limit_invariant :
    (⟨[], 1, 0⟩ : BodyReader).total_read ≤ (⟨[], 1, 0⟩ : BodyReader).body_limit ∧
    BodyReader.read ⟨[], 1, 0⟩ [SockRead.ok [97, 98]] 1 =
      some (ReadOutcome.ok [97] ⟨[98], 1, 3⟩ []) ∧
    ¬ ((⟨[98], 1, 3⟩ : BodyReader).total_read ≤
        (⟨[98], 1, 3⟩ : BodyReader).body_limit) := by
  decide

/-- C2 as amended: `total_read ≤ body_limit` holds at construction
(`body()` starts the counter at 0) and is preserved by every read call
that is answered from the buffer, by `fill_buf` (which changes nothing)
and by `consume` (which changes neither field); only reads that take the
socket-refill branch can push `total_read` beyond `body_limit`, as the
counterexample shows. -/
theorem total_read_le_limit_buffered_paths :
    (∀ (r : RawRequest) (br : BodyReader), RawRequest.body r = some br →
      br.total_read = 0 ∧ br.total_read ≤ br.body_limit) ∧
    (∀ (s s' : BodyReader) (sock sock' : List SockRead) (k : Nat) (bs : List Nat),
      s.req_buf ≠ [] → s.total_read ≤ s.body_limit → s.body_limit < usizeSize →
      s.read sock k = some (ReadOutcome.ok bs s' sock') →
      s'.total_read ≤ s'.body_limit) ∧
    (∀ s : BodyReader, BodyReader.fill_buf s = s.req_buf) ∧
    (∀ (s : BodyReader) (amt : Nat), s.total_read ≤ s.body_limit →
      (BodyReader.consume amt s).total_read ≤
        (BodyReader.consume amt s).body_limit) := by
  refine ⟨?_, ?_, fun s => rfl, fun s amt h => h⟩
  · intro r br hbody
    unfold RawRequest.body at hbody
    cases hcl : r.content_length with
    | none =>
      rw [hcl] at hbody
      simp at hbody
    | some L =>
      rw [hcl] at hbody
      simp only [Option.map_some', Option.some.injEq] at hbody
      rw [← hbody]
      exact ⟨rfl, Nat.zero_le _⟩
  · intro s s' sock sock' k bs hbne hle hS hread
    by_cases hc : s.body_limit ≤ s.total_read
    · rw [read_limit_le_eq s sock k hc] at hread
      simp only [Option.some.injEq, ReadOutcome.ok.injEq] at hread
      obtain ⟨-, hs, -⟩ := hread
      rw [← hs]
      exact hle
    · push_neg at hc
      rw [read_buffered_eq s sock k hbne hc] at hread
      rw [subUsize_of_le (by omega) hS] at hread
      simp only [Option.some.injEq, ReadOutcome.ok.injEq] at hread
      obtain ⟨-, hs, -⟩ := hread
      rw [← hs]
      show s.total_read + _ ≤ s.body_limit
      omega

/-- Witness for C2's amended theorem at concrete states: a freshly
constructed reader (no Content-Length header, sentinel limit), a
buffer-served read from `total_read = 1` to `2 ≤ 5`, and a `consume`. -/
theorem total_read_le_limit_buffered_paths_witness :
    ((⟨[3, 4], usizeMax, 0⟩ : BodyReader).total_read = 0 ∧
      (⟨[3, 4], usizeMax, 0⟩ : BodyReader).total_read ≤
        (⟨[3, 4], usizeMax, 0⟩ : BodyReader).body_limit) ∧
    (⟨[8], 5, 2⟩ : BodyReader).total_read ≤ (⟨[8], 5, 2⟩ : BodyReader).body_limit ∧
    (BodyReader.consume 1 ⟨[8, 9], 5, 2⟩).total_read ≤
      (BodyReader.consume 1 ⟨[8, 9], 5, 2⟩).body_limit := by
  refine ⟨total_read_le_limit_buffered_paths.1 ⟨[], [3, 4]⟩ ⟨[3, 4], usizeMax, 0⟩
      (by decide),
    total_read_le_limit_buffered_paths.2.1 ⟨[7, 8], 5, 1⟩ ⟨[8], 5, 2⟩ [] [] 1 [7]
      (by decide) (by decide) (by decide) (by decide),
    total_read_le_limit_buffered_paths.2.2.2 ⟨[8, 9], 5, 2⟩ 1 (by decide)⟩

/-! ## C8 — buffered reads never touch the socket -/

/-- C8 (confirmed): a read call that finds a non-empty buffered region
is served entirely from the buffer — it copies
`bufferedCopyLen s k ≤ min k (body_limit - total_read)` bytes, advances
the buffer and `total_read` by that amount, and returns with the socket
oracle untouched; and if the buffer already holds all `N` declared body
bytes when `body()` is called, no sequence of reads ever consumes the
socket. -/
theorem read_buffered_no_socket :
    (∀ (s : BodyReader) (sock : List SockRead) (k : Nat),
      s.req_buf ≠ [] → s.body_limit < usizeSize →
      s.read sock k = some (ReadOutcome.ok (s.req_buf.take (bufferedCopyLen s k))
        ⟨s.req_buf.drop (bufferedCopyLen s k), s.body_limit,
          s.total_read + bufferedCopyLen s k⟩ sock) ∧
      bufferedCopyLen s k ≤ min k (s.body_limit - s.total_read)) ∧
    (∀ (buf : List Nat) (N : Nat) (sock : List SockRead) (ks : List Nat),
      N < usizeSize → N ≤ buf.length →
      ∃ (bs : List Nat) (fin : BodyReader),
        runReads ⟨buf, N, 0⟩ sock ks = some (bs, fin, sock)) := by
  constructor
  · intro s sock k hbne hS
    unfold bufferedCopyLen
    by_cases hc : s.body_limit ≤ s.total_read
    · rw [if_pos hc]
      refine ⟨?_, by omega⟩
      rw [read_limit_le_eq s sock k hc]
      simp
    · rw [if_neg hc]
      push_neg at hc
      refine ⟨?_, by omega⟩
      rw [read_buffered_eq s sock k hbne hc]
      rw [subUsize_of_le (by omega) hS]
  · intro buf N sock ks hS hbuf
    exact ⟨_, _, runReads_buffered_aux ks buf N 0 sock (Nat.zero_le N) hS
      (by simpa using hbuf)⟩

/-- Witness for C8 at concrete states: a buffered read with a socket
error queued that is never hit, and a two-byte-buffered run with limit 1
that leaves the socket oracle intact. -/
theorem read_buffered_no_socket_witness :
    BodyReader.read ⟨[5, 6], 10, 0⟩ [SockRead.err] 1 =
      some (ReadOutcome.ok [5] ⟨[6], 10, 1⟩ [SockRead.err]) ∧
    ∃ (bs : List Nat) (fin : BodyReader),
      runReads ⟨[7], 1, 0⟩ [SockRead.err] [3] = some (bs, fin, [SockRead.err]) := by
  constructor
  · have h := (read_buffered_no_socket.1 ⟨[5, 6], 10, 0⟩ [SockRead.err] 1
      (by decide) (by decide)).1
    rw [h]
    decide
  · exact read_buffered_no_socket.2 [7] 1 [SockRead.err] [3] (by decide) (by decide)

/-! ## Further helper lemmas -/

/-- One unfolding of the `read` loop. -/
theorem readLoop_eq (k : Nat) (s : BodyReader) (sock : List SockRead) :
    readLoop k s sock =
      if s.req_buf = [] then
        match sock with
        | [] => none
        | SockRead.err :: rest => some (ReadOutcome.ioErr s rest)
        | SockRead.ok c :: rest =>
            readLoop k ⟨s.req_buf ++ c, s.body_limit, s.total_read + c.length⟩ rest
      else
        some (ReadOutcome.ok
          (s.req_buf.take (min (min k (subUsize s.body_limit s.total_read))
            s.req_buf.length))
          ⟨s.req_buf.drop (min (min k (subUsize s.body_limit s.total_read))
              s.req_buf.length), s.body_limit,
            s.total_read + min (min k (subUsize s.body_limit s.total_read))
              s.req_buf.length⟩ sock) := by
  rw [readLoop.eq_def]

/-- A successfully parsed Content-Length value fits in `usize`. -/
theorem parseUsize_le {bs : List Nat} {v : Nat} (h : parseUsize bs = some v) :
    v ≤ usizeMax := by
  unfold parseUsize at h
  simp only [] at h
  split_ifs at h
  all_goals simp_all

/-- Whatever `content_length` returns successfully is at most
`usize::MAX`. -/
theorem contentLengthOf_le {hdrs : List Header} {L : Nat}
    (h : contentLengthOf hdrs = some L) : L ≤ usizeMax := by
  induction hdrs with
  | nil =>
    simp only [contentLengthOf, Option.some.injEq] at h
    rw [← h]
  | cons hd t ih =>
    unfold contentLengthOf at h
    split_ifs at h with hc
    · exact parseUsize_le h
    · exact ih h

/-- Unfolding `drainAux` one pull at a time. -/
theorem drainAux_succ (f : Nat) (s : BodyReader) (sock : List SockRead) :
    drainAux (f + 1) s sock =
      match s.read sock (s.body_limit - s.total_read) with
      | some (ReadOutcome.ok [] _ _) => some []
      | some (ReadOutcome.ok bs s' sock') =>
          (drainAux f s' sock').map fun r => bs ++ r
      | _ => none := rfl

/-- Draining a fresh reader whose buffer already holds at least its
`body_limit = L` bytes yields exactly the first `L` buffered bytes and
never touches the socket. -/
theorem drain_buffered (buf : List Nat) (L : Nat) (sock : List SockRead)
    (hL : L ≤ buf.length) (hS : L < usizeSize) :
    drain ⟨buf, L, 0⟩ sock = some (buf.take L) := by
  unfold drain
  cases L with
  | zero =>
    rw [show (⟨buf, 0, 0⟩ : BodyReader).req_buf.length + sock.length + 2 =
        (buf.length + sock.length + 1) + 1 from rfl]
    rw [drainAux_succ]
    rw [read_limit_le_eq ⟨buf, 0, 0⟩ sock _ (Nat.le_refl 0)]
    rfl
  | succ M =>
    cases buf with
    | nil => simp at hL
    | cons b bs =>
      have hlen : M + 1 ≤ bs.length + 1 := by simpa using hL
      have h1 : BodyReader.read ⟨b :: bs, M + 1, 0⟩ sock
          ((⟨b :: bs, M + 1, 0⟩ : BodyReader).body_limit -
            (⟨b :: bs, M + 1, 0⟩ : BodyReader).total_read) =
          some (ReadOutcome.ok (b :: List.take M bs)
            ⟨List.drop M bs, M + 1, M + 1⟩ sock) := by
        have h := read_buffered_eq ⟨b :: bs, M + 1, 0⟩ sock (M + 1 - 0)
          (by simp) (by show 0 < M + 1; omega)
        rw [subUsize_of_le (Nat.zero_le _) hS] at h
        simpa [Nat.min_eq_left hlen] using h
      rw [show (⟨b :: bs, M + 1, 0⟩ : BodyReader).req_buf.length + sock.length + 2 =
          ((b :: bs).length + sock.length + 1) + 1 from rfl]
      rw [drainAux_succ, h1]
      show Option.map (fun r => (b :: List.take M bs) ++ r)
          (drainAux ((b :: bs).length + sock.length + 1)
            ⟨List.drop M bs, M + 1, M + 1⟩ sock) =
        some (List.take (M + 1) (b :: bs))
      rw [show (b :: bs).length + sock.length + 1 =
          ((b :: bs).length + sock.length) + 1 from rfl]
      rw [drainAux_succ]
      rw [read_limit_le_eq ⟨List.drop M bs, M + 1, M + 1⟩ sock _
        (Nat.le_refl (M + 1))]
      simp

/-! ## C9 — Request::json_body goes through the Body Reader -/

/-- C9 counterexample: buffer holds the two bytes `42` but the header
declares `Content-Length: 1`.  `Request::json_body` reads through the
Body Reader, which delivers only `4` before end-of-stream, so it decodes
to 4, while `RawRequest::json_body` decodes the whole buffer to 42: the
two differ, so `Request::json_body` does not bypass the Body Reader and
is not the delegated `RawRequest::json_body`. -/
theorem request_json_body_not_delegated :
    Request.json_body decodeJsonNat
      ⟨[], [], ⟨[⟨asciiBytes "Content-Length", asciiBytes "1"⟩],
        asciiBytes "42"⟩⟩ [] = JsonOutcome.result (some 4) ∧
    RawRequest.json_body decodeJsonNat
      ⟨[⟨asciiBytes "Content-Length", asciiBytes "1"⟩], asciiBytes "42"⟩ =
      some 42 ∧
    Request.json_body decodeJsonNat
      ⟨[], [], ⟨[⟨asciiBytes "Content-Length", asciiBytes "1"⟩],
        asciiBytes "42"⟩⟩ [] ≠
      JsonOutcome.result (RawRequest.json_body decodeJsonNat
        ⟨[⟨asciiBytes "Content-Length", asciiBytes "1"⟩], asciiBytes "42"⟩) := by
  decide

/-- C9 as amended: `Request::json_body` decodes the byte stream
delivered by the Body Reader — bounded by the declared content length —
rather than delegating to `RawRequest::json_body`: whenever
`content_length = L` and the buffer holds at least `L` bytes, the facade
decodes exactly the first `L` buffered bytes, while the raw view's
`json_body` decodes the entire remaining buffer content; the two
disagree whenever the extra buffered bytes change the decode. -/
theorem request_json_body_via_body_reader {J : Type} (dec : List Nat → Option J)
    (ps us : List (String × String)) (r : RawRequest) (sock : List SockRead)
    (L : Nat) (hcl : r.content_length = some L) (hbuf : L ≤ r.req_buf.length) :
    Request.json_body dec ⟨ps, us, r⟩ sock =
      JsonOutcome.result (dec (r.req_buf.take L)) ∧
    RawRequest.json_body dec r = dec r.req_buf := by
  refine ⟨?_, rfl⟩
  have hS : L < usizeSize := by
    have hle : L ≤ usizeMax := contentLengthOf_le hcl
    unfold usizeMax at hle
    unfold usizeSize at *
    omega
  unfold Request.json_body Request.body RawRequest.body
  rw [hcl]
  simp only [Option.map_some']
  rw [drain_buffered r.req_buf L sock hbuf hS]

/-- Witness for C9's amended theorem: `Content-Length: 3` with four
buffered digit bytes — the facade decodes only the first three, while
the raw view decodes all four. -/
theorem request_json_body_via_body_reader_witness :
    Request.json_body decodeJsonNat
      ⟨[], [], ⟨[⟨asciiBytes "Content-Length", asciiBytes "3"⟩],
        [49, 50, 51, 52]⟩⟩ [] =
      JsonOutcome.result (decodeJsonNat [49, 50, 51]) ∧
    RawRequest.json_body decodeJsonNat
      ⟨[⟨asciiBytes "Content-Length", asciiBytes "3"⟩], [49, 50, 51, 52]⟩ =
      decodeJsonNat [49, 50, 51, 52] := by
  have h := request_json_body_via_body_reader decodeJsonNat [] []
    ⟨[⟨asciiBytes "Content-Length", asciiBytes "3"⟩], [49, 50, 51, 52]⟩ [] 3
    (by decide) (by decide)
  refine ⟨?_, h.2⟩
  rw [h.1]
  decide

/-! ## C10 — behaviour of read on an empty buffer -/

/-- If the buffer is empty and every modelled socket read returns zero
bytes, the loop consumes the whole oracle and is still inside the loop:
the call has not returned, however many zero-byte reads are modelled. -/
theorem readLoop_all_empty (k : Nat) :
    ∀ (sock : List SockRead) (s : BodyReader), s.req_buf = [] →
      (∀ x ∈ sock, x = SockRead.ok []) → readLoop k s sock = none := by
  intro sock
  induction sock with
  | nil =>
    intro s hb _
    rw [readLoop_eq, if_pos hb]
  | cons x rest ih =>
    intro s hb hall
    have hx : x = SockRead.ok [] := hall x (List.mem_cons_self x rest)
    subst hx
    rw [readLoop_eq, if_pos hb]
    exact ih ⟨s.req_buf ++ [], s.body_limit, s.total_read + List.length []⟩
      (by simp [hb]) (fun y hy => hall y (List.mem_cons_of_mem _ hy))

/-- If the buffer is empty and the socket yields zero-byte reads and
then an error, the error is propagated with the reader state unchanged
(`total_read` is not bumped by the failing read). -/
theorem readLoop_reaches_err (k : Nat) :
    ∀ (pre : List SockRead) (sl st : Nat) (rest : List SockRead),
      (∀ x ∈ pre, x = SockRead.ok []) →
      readLoop k ⟨[], sl, st⟩ (pre ++ SockRead.err :: rest) =
        some (ReadOutcome.ioErr ⟨[], sl, st⟩ rest) := by
  intro pre
  induction pre with
  | nil =>
    intro sl st rest _
    rfl
  | cons x p ih =>
    intro sl st rest hall
    have hx : x = SockRead.ok [] := hall x (List.mem_cons_self x p)
    subst hx
    exact ih sl st rest (fun y hy => hall y (List.mem_cons_of_mem _ hy))

/-- If the buffer is empty and the socket yields zero-byte reads and
then a non-empty chunk, the call returns, consuming the oracle exactly
up to and including that chunk. -/
theorem readLoop_reaches_data (k : Nat) :
    ∀ (pre : List SockRead) (sl st : Nat) (c : List Nat) (rest : List SockRead),
      (∀ x ∈ pre, x = SockRead.ok []) → c ≠ [] →
      ∃ (bs : List Nat) (s' : BodyReader),
        readLoop k ⟨[], sl, st⟩ (pre ++ SockRead.ok c :: rest) =
          some (ReadOutcome.ok bs s' rest) := by
  intro pre
  induction pre with
  | nil =>
    intro sl st c rest _ hc
    cases c with
    | nil => exact absurd rfl hc
    | cons b cs =>
      refine ⟨(b :: cs).take (min (min k (subUsize sl (st + (b :: cs).length)))
          (b :: cs).length),
        ⟨(b :: cs).drop (min (min k (subUsize sl (st + (b :: cs).length)))
            (b :: cs).length), sl,
          st + (b :: cs).length + min (min k (subUsize sl (st + (b :: cs).length)))
            (b :: cs).length⟩, ?_⟩
      rw [List.nil_append, readLoop_eq, if_pos rfl]
      show readLoop k ⟨[] ++ (b :: cs), sl, st + (b :: cs).length⟩ rest = _
      rw [List.nil_append, readLoop_eq, if_neg (by simp)]
  | cons x p ih =>
    intro sl st c rest hall hc
    have hx : x = SockRead.ok [] := hall x (List.mem_cons_self x p)
    subst hx
    exact ih sl st c rest (fun y hy => hall y (List.mem_cons_of_mem _ hy)) hc

/-- C10 (confirmed): a `read` call on an empty buffer with budget left
returns exactly when some socket read errors (the error is propagated)
or delivers at least one byte; against a peer that only ever reports
zero bytes (stream closed before the declared body length), the call
stays inside the loop forever — it never returns to the caller, no
matter how many zero-byte socket reads happen. -/
theorem read_empty_buffer_blocking (sl st k : Nat) (hlt : st < sl) :
    (∀ sock : List SockRead, (∀ x ∈ sock, x = SockRead.ok []) →
      BodyReader.read ⟨[], sl, st⟩ sock k = none) ∧
    (∀ (pre rest : List SockRead), (∀ x ∈ pre, x = SockRead.ok []) →
      BodyReader.read ⟨[], sl, st⟩ (pre ++ SockRead.err :: rest) k =
        some (ReadOutcome.ioErr ⟨[], sl, st⟩ rest)) ∧
    (∀ (pre : List SockRead) (c : List Nat) (rest : List SockRead),
      (∀ x ∈ pre, x = SockRead.ok []) → c ≠ [] →
      ∃ (bs : List Nat) (s' : BodyReader),
        BodyReader.read ⟨[], sl, st⟩ (pre ++ SockRead.ok c :: rest) k =
          some (ReadOutcome.ok bs s' rest)) := by
  have hnot : ¬ ((⟨[], sl, st⟩ : BodyReader).body_limit ≤
      (⟨[], sl, st⟩ : BodyReader).total_read) := by
    show ¬ (sl ≤ st)
    omega
  refine ⟨?_, ?_, ?_⟩
  · intro sock hall
    unfold BodyReader.read
    rw [if_neg hnot]
    exact readLoop_all_empty k sock ⟨[], sl, st⟩ rfl hall
  · intro pre rest hall
    unfold BodyReader.read
    rw [if_neg hnot]
    exact readLoop_reaches_err k pre sl st rest hall
  · intro pre c rest hall hc
    unfold BodyReader.read
    rw [if_neg hnot]
    exact readLoop_reaches_data k pre sl st c rest hall hc

/-- Witness for C10 at a concrete state (limit 2, nothing read yet,
empty buffer): two zero-byte socket reads leave the call still blocked;
a zero-byte read followed by an error propagates the error; a one-byte
chunk makes the call return. -/
theorem read_empty_buffer_blocking_witness :
    BodyReader.read ⟨[], 2, 0⟩ [SockRead.ok [], SockRead.ok []] 1 = none ∧
    BodyReader.read ⟨[], 2, 0⟩ [SockRead.ok [], SockRead.err] 1 =
      some (ReadOutcome.ioErr ⟨[], 2, 0⟩ []) ∧
    ∃ (bs : List Nat) (s' : BodyReader),
      BodyReader.read ⟨[], 2, 0⟩ [SockRead.ok [], SockRead.ok [97]] 1 =
        some (ReadOutcome.ok bs s' []) := by
  refine ⟨(read_empty_buffer_blocking 2 0 1 (by decide)).1
      [SockRead.ok [], SockRead.ok []] (by decide), ?_, ?_⟩
  · exact (read_empty_buffer_blocking 2 0 1 (by decide)).2.1
      [SockRead.ok []] [] (by decide)
  · exact (read_empty_buffer_blocking 2 0 1 (by decide)).2.2
      [SockRead.ok []] [97] [] (by decide) (by decide)
